import Mathlib

/-!
# Verification of the Cloze Mask Auto-Fill add-on core logic

Shallow embedding of `src/__init__.py` (an Anki add-on that masks the first
occurrence of a target word inside a sentence and writes the result into a
destination field).  Python strings are modelled as `List Char`; the `-1`
sentinel of `str.find` becomes `Option Nat`; a note is a type name plus an
association list from field names to values; `dict`-typed configuration whose
keys may be absent becomes a structure of `Option` fields overlaid on the
defaults.  Host-side effects (Qt dialogs, the collection) are outside the
embedding except where a claim needs them: the bulk action's per-record loop
is modelled in the `Except` monad because the source contains no exception
handler there.
-/

namespace ClozeMask

/-- Python `str.find`: index of the first occurrence of `w` as a substring of
`s`, or `none` where the source returns `-1`. -/
def findSub (s w : List Char) : Option Nat :=
  if w.isPrefixOf s then some 0
  else
    match s with
    | [] => none
    | _ :: s' => (findSub s' w).map (· + 1)

/-- Python `t in s` on strings: substring containment. -/
def containsSub (s w : List Char) : Bool :=
  (findSub s w).isSome

/-- Python `str.strip()`: remove leading and trailing whitespace. -/
def strip (s : List Char) : List Char :=
  ((s.dropWhile Char.isWhitespace).reverse.dropWhile Char.isWhitespace).reverse

/-- Python `str.lower()`. -/
def lower (s : List Char) : List Char :=
  s.map Char.toLower

/-- Python `str.split(",")`: split on every comma, keeping empty pieces. -/
def splitComma : List Char → List (List Char)
  | [] => [[]]
  | c :: cs =>
    if c = ',' then [] :: splitComma cs
    else
      match splitComma cs with
      | [] => [[c]]
      | p :: ps => (c :: p) :: ps

/-- `generate_cloze_sentence(sentence, word, mask)` from the source:

    if not sentence or not word: return None
    idx = sentence.find(word)
    if idx == -1: return None
    before = sentence[:idx]
    after = sentence[idx + len(word):]
    return before + mask + after
-/
def generate_cloze_sentence (sentence word mask : List Char) :
    Option (List Char) :=
  if sentence.isEmpty || word.isEmpty then none
  else
    match findSub sentence word with
    | none => none
    | some idx =>
        some (sentence.take idx ++ mask ++ sentence.drop (idx + word.length))

/-- `word` occurs as a substring of `sentence` starting at index `i`. -/
def OccursAt (s w : List Char) (i : Nat) : Prop :=
  w <+: s.drop i

instance instDecidableOccursAt (s w : List Char) (i : Nat) :
    Decidable (OccursAt s w i) :=
  decidable_of_iff (w.isPrefixOf (s.drop i) = true) List.isPrefixOf_iff_prefix

/-- The note-type filter token list of `populate_cloze`:
`[t.strip().lower() for t in str(CFG.get("noteTypes", "")).split(",") if t.strip()]`. -/
def ntFilter (noteTypes : List Char) : List (List Char) :=
  ((splitComma noteTypes).filter (fun t => !(strip t).isEmpty)).map
    (fun t => lower (strip t))

/-- The note-type check of `populate_cloze`: the source skips the note
(`return False`) when `nt_filter and not any(t in note_name for t in nt_filter)`,
with `note_name = note.note_type()["name"].lower()`; this is the condition for
proceeding. -/
def passesTypeFilter (noteTypes name : List Char) : Bool :=
  (ntFilter noteTypes).isEmpty
    || (ntFilter noteTypes).any (fun t => containsSub (lower name) t)

/-- A host note: a note-type name (`note.note_type()["name"]`) plus a mapping
from field names to string values (`field in note`, `note[field]`,
`note[field] = value`). -/
structure Note where
  typeName : List Char
  fields : List (List Char × List Char)
deriving DecidableEq

/-- First-match association-list lookup, the reading half of `note[field]`. -/
def lookupField : List (List Char × List Char) → List Char → Option (List Char)
  | [], _ => none
  | (k, v) :: rest, k' => if k = k' then some v else lookupField rest k'

/-- Replace the value of the first entry named `k'`, the writing half of
`note[field] = value` (a note's field names are unique in the host). -/
def setFields : List (List Char × List Char) → List Char → List Char →
    List (List Char × List Char)
  | [], _, _ => []
  | (k, v) :: rest, k', v' =>
    if k = k' then (k, v') :: rest else (k, v) :: setFields rest k' v'

def getField (n : Note) (k : List Char) : Option (List Char) :=
  lookupField n.fields k

def setField (n : Note) (k v : List Char) : Note :=
  { n with fields := setFields n.fields k v }

/-- The add-on configuration after loading: every key is present. -/
structure Cfg where
  sentenceField : List Char
  wordField : List Char
  destinationField : List Char
  noteTypes : List Char
  lookupOnAdd : Bool
  maskString : List Char
  bulkActionLabel : List Char
  debug : Bool
deriving DecidableEq

/-- `_defaults()` from the source. -/
def defaults : Cfg where
  sentenceField := "Sentence".toList
  wordField := "Reading".toList
  destinationField := "ClozeSentence".toList
  noteTypes := "".toList
  lookupOnAdd := true
  maskString := "◼◼◼".toList
  bulkActionLabel := "Generate Cloze Masks".toList
  debug := false

/-- A user-saved configuration mapping (`mw.addonManager.getConfig(...) or {}`):
any key may be absent. -/
structure UserCfg where
  sentenceField : Option (List Char) := none
  wordField : Option (List Char) := none
  destinationField : Option (List Char) := none
  noteTypes : Option (List Char) := none
  lookupOnAdd : Option Bool := none
  maskString : Option (List Char) := none
  bulkActionLabel : Option (List Char) := none
  debug : Option Bool := none

/-- `_load_cfg()` from the source: `{**_defaults(), **user}` — key-by-key, a
present user value overrides the default and an absent key keeps it. -/
def load_cfg (u : UserCfg) : Cfg where
  sentenceField := u.sentenceField.getD defaults.sentenceField
  wordField := u.wordField.getD defaults.wordField
  destinationField := u.destinationField.getD defaults.destinationField
  noteTypes := u.noteTypes.getD defaults.noteTypes
  lookupOnAdd := u.lookupOnAdd.getD defaults.lookupOnAdd
  maskString := u.maskString.getD defaults.maskString
  bulkActionLabel := u.bulkActionLabel.getD defaults.bulkActionLabel
  debug := u.debug.getD defaults.debug

/-- `populate_cloze(note)` from the source, with the process-wide `CFG`
passed explicitly.  Returns the Python boolean result together with the
(possibly updated) note.  The source's debug logging and the
destination-equals-sentence warning have no effect on the result and are
omitted. -/
def populate_cloze (cfg : Cfg) (note : Note) : Bool × Note :=
  if passesTypeFilter cfg.noteTypes note.typeName then
    match getField note cfg.sentenceField, getField note cfg.wordField,
        getField note cfg.destinationField with
    | some sRaw, some wRaw, some _ =>
        let sentence := strip sRaw
        let word := strip wRaw
        if sentence.isEmpty || word.isEmpty then (false, note)
        else
          match generate_cloze_sentence sentence word cfg.maskString with
          | none => (false, note)
          | some clozed => (true, setField note cfg.destinationField clozed)
    | _, _, _ => (false, note)
  else (false, note)

/-- The loop of `bulk_generate_cloze(nids)`: for each id, fetch the note and
run `populate_cloze`, counting the changed notes.  Fetching or reading a
malformed note may raise, modelled by `Except`; the source wraps NO
try/except around the loop body, so a raised error propagates out of the
whole loop. -/
def bulkRun (getNote : Nat → Except String Note) (cfg : Cfg) :
    List Nat → Nat → Except String Nat
  | [], changed => Except.ok changed
  | nid :: rest, changed =>
    match getNote nid with
    | Except.error e => Except.error e
    | Except.ok note =>
        bulkRun getNote cfg rest
          (if (populate_cloze cfg note).1 then changed + 1 else changed)

/-- `bulk_generate_cloze(nids)` from the source (after its configuration
reload, which here just fixes `cfg`): process the selected note ids in order
and report how many notes changed. -/
def bulk_generate_cloze (getNote : Nat → Except String Note) (cfg : Cfg)
    (nids : List Nat) : Except String Nat :=
  bulkRun getNote cfg nids 0

/-- A note whose destination field already holds exactly the masked sentence
that `populate_cloze` regenerates from its source fields. -/
def notePrefilled : Note where
  typeName := "Basic".toList
  fields :=
    [("Sentence".toList, "ab".toList),
     ("Reading".toList, "a".toList),
     ("ClozeSentence".toList, "◼◼◼b".toList)]

/-- A fresh note with an empty destination field. -/
def noteFresh : Note where
  typeName := "Vocab".toList
  fields :=
    [("Sentence".toList, "cd".toList),
     ("Reading".toList, "c".toList),
     ("ClozeSentence".toList, [])]

/-- A note whose word does not occur in its sentence. -/
def noteMiss : Note where
  typeName := "Vocab".toList
  fields :=
    [("Sentence".toList, "cd".toList),
     ("Reading".toList, "zz".toList),
     ("ClozeSentence".toList, [])]

/-- `noteFresh` after `populate_cloze` with the default configuration has
filled its destination field. -/
def noteFreshDone : Note where
  typeName := "Vocab".toList
  fields :=
    [("Sentence".toList, "cd".toList),
     ("Reading".toList, "c".toList),
     ("ClozeSentence".toList, "◼◼◼d".toList)]

/-- A note store for the bulk action: fetching note 1 raises (a malformed
record), note 2 is fine and would be changed by `populate_cloze`. -/
def storeWithBadNote (nid : Nat) : Except String Note :=
  if nid = 1 then Except.error "corrupt note" else Except.ok noteFresh

/-- A user-saved configuration whose `sentenceField` value is whitespace
only (empty after trimming). -/
def userBlankSentenceField : UserCfg where
  sentenceField := some "   ".toList

/-- A user-saved configuration with no keys at all. -/
def userEmpty : UserCfg := {}

theorem isPrefixOf_iff (w s : List Char) : w.isPrefixOf s = true ↔ w <+: s :=
  List.isPrefixOf_iff_prefix

theorem findSub_some (w : List Char) :
    ∀ (s : List Char) (i : Nat), findSub s w = some i →
      OccursAt s w i ∧ ∀ j, j < i → ¬ OccursAt s w j := by
  intro s
  induction s with
  | nil =>
    intro i h
    rw [findSub] at h
    by_cases hp : w.isPrefixOf ([] : List Char) = true
    · rw [if_pos hp] at h
      injection h with h0
      subst h0
      refine ⟨(isPrefixOf_iff _ _).mp hp, ?_⟩
      intro j hj
      omega
    · rw [if_neg hp] at h
      exact absurd h (by simp)
  | cons c s' ih =>
    intro i h
    rw [findSub] at h
    by_cases hp : w.isPrefixOf (c :: s') = true
    · rw [if_pos hp] at h
      injection h with h0
      subst h0
      refine ⟨(isPrefixOf_iff _ _).mp hp, ?_⟩
      intro j hj
      omega
    · rw [if_neg hp] at h
      obtain ⟨a, ha, hai⟩ := Option.map_eq_some'.mp h
      obtain ⟨hocc, hmin⟩ := ih a ha
      subst hai
      constructor
      · simpa [OccursAt, List.drop_succ_cons] using hocc
      · intro j hj
        match j with
        | 0 =>
          intro hcon
          exact hp ((isPrefixOf_iff _ _).mpr hcon)
        | j' + 1 =>
          intro hcon
          exact hmin j' (by omega)
            (by simpa [OccursAt, List.drop_succ_cons] using hcon)

theorem findSub_none (w : List Char) :
    ∀ (s : List Char), findSub s w = none → ∀ j, ¬ OccursAt s w j := by
  intro s
  induction s with
  | nil =>
    intro h j hcon
    rw [findSub] at h
    by_cases hp : w.isPrefixOf ([] : List Char) = true
    · rw [if_pos hp] at h
      exact absurd h (by simp)
    · rw [OccursAt, List.drop_nil] at hcon
      exact hp ((isPrefixOf_iff _ _).mpr hcon)
  | cons c s' ih =>
    intro h j hcon
    rw [findSub] at h
    by_cases hp : w.isPrefixOf (c :: s') = true
    · rw [if_pos hp] at h
      exact absurd h (by simp)
    · rw [if_neg hp] at h
      have h' : findSub s' w = none := Option.map_eq_none'.mp h
      match j with
      | 0 => exact hp ((isPrefixOf_iff _ _).mpr hcon)
      | j' + 1 =>
        exact ih h' j' (by simpa [OccursAt, List.drop_succ_cons] using hcon)

theorem containsSub_iff (s w : List Char) :
    containsSub s w = true ↔ ∃ i, OccursAt s w i := by
  rw [containsSub]
  constructor
  · intro h
    match hf : findSub s w with
    | some i => exact ⟨i, (findSub_some w s i hf).1⟩
    | none => rw [hf] at h; exact absurd h (by simp)
  · rintro ⟨i, hi⟩
    match hf : findSub s w with
    | some _ => simp [hf]
    | none => exact absurd hi (findSub_none w s hf i)

theorem generate_eq_of_findSub (S W M : List Char)
    (hS : S ≠ []) (hW : W ≠ []) (i : Nat) (hf : findSub S W = some i) :
    generate_cloze_sentence S W M
      = some (S.take i ++ M ++ S.drop (i + W.length)) := by
  rw [generate_cloze_sentence]
  have hc : (S.isEmpty || W.isEmpty) = false := by
    simp [List.isEmpty_iff, hS, hW]
  rw [hc]
  simp only [Bool.false_eq_true, if_false]
  rw [hf]

theorem occursAt_add_length_le (S W : List Char) (i : Nat)
    (hW : W ≠ []) (h : OccursAt S W i) : i + W.length ≤ S.length := by
  have h1 : W.length ≤ (S.drop i).length := h.length_le
  rw [List.length_drop] at h1
  by_cases hi : i ≤ S.length
  · omega
  · exfalso
    have hd : S.drop i = [] := List.drop_eq_nil_of_le (by omega)
    rw [OccursAt, hd] at h
    have hlen := h.length_le
    simp only [List.length_nil, Nat.le_zero, List.length_eq_zero] at hlen
    exact hW hlen

theorem generate_some_nonempty (S W M R : List Char)
    (h : generate_cloze_sentence S W M = some R) :
    (S.isEmpty || W.isEmpty) = false := by
  cases hb : (S.isEmpty || W.isEmpty) with
  | false => rfl
  | true =>
    rw [generate_cloze_sentence, hb] at h
    exact absurd h (by simp)

theorem lookupField_setFields_self (k v : List Char) :
    ∀ fs : List (List Char × List Char), (lookupField fs k).isSome = true →
      lookupField (setFields fs k v) k = some v := by
  intro fs
  induction fs with
  | nil => intro h; rw [lookupField] at h; exact absurd h (by simp)
  | cons p rest ih =>
    intro h
    obtain ⟨k0, v0⟩ := p
    rw [lookupField] at h
    rw [setFields]
    by_cases hk : k0 = k
    · rw [if_pos hk, lookupField, if_pos hk]
    · rw [if_neg hk, lookupField, if_neg hk]
      rw [if_neg hk] at h
      exact ih h

theorem setFields_eq_of_lookup (k v : List Char) :
    ∀ fs : List (List Char × List Char), lookupField fs k = some v →
      setFields fs k v = fs := by
  intro fs
  induction fs with
  | nil => intro h; rw [lookupField] at h; exact absurd h (by simp)
  | cons p rest ih =>
    intro h
    obtain ⟨k0, v0⟩ := p
    rw [lookupField] at h
    rw [setFields]
    by_cases hk : k0 = k
    · rw [if_pos hk] at h ⊢
      injection h with h
      rw [h]
    · rw [if_neg hk] at h ⊢
      rw [ih h]

theorem typeName_setField (n : Note) (k v : List Char) :
    (setField n k v).typeName = n.typeName := rfl

theorem getField_setField_self (n : Note) (k v : List Char)
    (h : (getField n k).isSome = true) :
    getField (setField n k v) k = some v :=
  lookupField_setFields_self k v n.fields h

theorem setField_eq_of_getField (n : Note) (k v : List Char)
    (h : getField n k = some v) : setField n k v = n := by
  obtain ⟨t, fs⟩ := n
  rw [setField]
  rw [getField] at h
  simp only [Note.mk.injEq, true_and]
  exact setFields_eq_of_lookup k v fs h

theorem populate_cloze_eq_true_of (cfg : Cfg) (note : Note)
    (sRaw wRaw clozed : List Char)
    (h1 : passesTypeFilter cfg.noteTypes note.typeName = true)
    (h2 : getField note cfg.sentenceField = some sRaw)
    (h3 : getField note cfg.wordField = some wRaw)
    (h4 : (getField note cfg.destinationField).isSome = true)
    (h5 : generate_cloze_sentence (strip sRaw) (strip wRaw) cfg.maskString
      = some clozed) :
    populate_cloze cfg note
      = (true, setField note cfg.destinationField clozed) := by
  obtain ⟨dRaw, hd⟩ := Option.isSome_iff_exists.mp h4
  have he := generate_some_nonempty (strip sRaw) (strip wRaw) cfg.maskString
    clozed h5
  rw [populate_cloze, if_pos h1, h2, h3, hd]
  simp only [he, Bool.false_eq_true, if_false, h5]

theorem populate_cloze_cases (cfg : Cfg) (note : Note) :
    (∃ clozed sRaw wRaw,
        passesTypeFilter cfg.noteTypes note.typeName = true ∧
        getField note cfg.sentenceField = some sRaw ∧
        getField note cfg.wordField = some wRaw ∧
        (getField note cfg.destinationField).isSome = true ∧
        generate_cloze_sentence (strip sRaw) (strip wRaw) cfg.maskString
          = some clozed ∧
        populate_cloze cfg note
          = (true, setField note cfg.destinationField clozed))
    ∨ populate_cloze cfg note = (false, note) := by
  by_cases hp : passesTypeFilter cfg.noteTypes note.typeName = true
  · rcases hs : getField note cfg.sentenceField with _ | sRaw
    · right; rw [populate_cloze, if_pos hp, hs]
    rcases hw : getField note cfg.wordField with _ | wRaw
    · right; rw [populate_cloze, if_pos hp, hs, hw]
    rcases hd : getField note cfg.destinationField with _ | dRaw
    · right; rw [populate_cloze, if_pos hp, hs, hw, hd]
    rcases hg : generate_cloze_sentence (strip sRaw) (strip wRaw)
        cfg.maskString with _ | clozed
    · right
      rw [populate_cloze, if_pos hp, hs, hw, hd]
      dsimp only
      cases he : ((strip sRaw).isEmpty || (strip wRaw).isEmpty) with
      | true => simp only [if_true]
      | false => simp only [Bool.false_eq_true, if_false, hg]
    · left
      refine ⟨clozed, sRaw, wRaw, hp, rfl, rfl, rfl, hg, ?_⟩
      exact populate_cloze_eq_true_of cfg note sRaw wRaw clozed hp hs hw
        (by rw [hd]; rfl) hg
  · right
    rw [populate_cloze, if_neg hp]

/-- C1: for every sentence `S`, word `W` occurring as a substring of `S`
(both non-empty) and mask `M`, `generate_cloze_sentence S W M` returns `S`
with exactly the span of the first (least-index) occurrence of `W` replaced
by `M`: every character before the span and after it is kept unchanged in
position and value, so later identical occurrences of `W` are left intact. -/
theorem generate_replaces_first_occurrence (S W M : List Char)
    (hS : S ≠ []) (hW : W ≠ []) (hocc : ∃ i, OccursAt S W i) :
    ∃ i, generate_cloze_sentence S W M
        = some (S.take i ++ M ++ S.drop (i + W.length))
      ∧ OccursAt S W i ∧ ∀ j, OccursAt S W j → i ≤ j := by
  obtain ⟨j0, hj0⟩ := hocc
  match hf : findSub S W with
  | none => exact absurd hj0 (findSub_none W S hf j0)
  | some i =>
    obtain ⟨hocc_i, hmin⟩ := findSub_some W S i hf
    refine ⟨i, generate_eq_of_findSub S W M hS hW i hf, hocc_i, ?_⟩
    intro j hj
    by_contra hlt
    exact hmin j (by omega) hj

theorem generate_replaces_first_occurrence_inst :
    ∃ i, generate_cloze_sentence "abab".toList "ab".toList "X".toList
        = some ("abab".toList.take i ++ "X".toList
            ++ "abab".toList.drop (i + "ab".toList.length))
      ∧ OccursAt "abab".toList "ab".toList i
      ∧ ∀ j, OccursAt "abab".toList "ab".toList j → i ≤ j :=
  generate_replaces_first_occurrence "abab".toList "ab".toList "X".toList
    (by decide) (by decide) ⟨0, by decide⟩

/-- C2: `generate_cloze_sentence S W M` returns `none` (not applicable) iff
`S` is empty, `W` is empty, or `W` does not occur as a substring of `S`; in
every other case it returns a string. -/
theorem generate_none_iff (S W M : List Char) :
    generate_cloze_sentence S W M = none ↔
      (S = [] ∨ W = [] ∨ ¬ ∃ i, OccursAt S W i) := by
  by_cases hS : S = []
  · simp [generate_cloze_sentence, hS]
  by_cases hW : W = []
  · simp [generate_cloze_sentence, hW]
  match hf : findSub S W with
  | none =>
    have hno : ¬ ∃ i, OccursAt S W i := by
      rintro ⟨i, hi⟩
      exact findSub_none W S hf i hi
    simp only [generate_cloze_sentence]
    have hc : (S.isEmpty || W.isEmpty) = false := by
      simp [List.isEmpty_iff, hS, hW]
    rw [hc]
    simp [hf, hS, hW, hno]
  | some i =>
    rw [generate_eq_of_findSub S W M hS hW i hf]
    have hyes : ∃ j, OccursAt S W j := ⟨i, (findSub_some W S i hf).1⟩
    simp [hS, hW, hyes]

/-- C9: the mask may be empty: for non-empty `S` and `W` with `W` occurring
in `S`, `generate_cloze_sentence S W ""` returns `S` with the first
occurrence of `W` deleted, and in general any produced result has length
`length S - length W + length mask`. -/
theorem generate_empty_mask_and_length (S W : List Char)
    (hS : S ≠ []) (hW : W ≠ []) (hocc : ∃ i, OccursAt S W i) :
    (∃ i, generate_cloze_sentence S W []
        = some (S.take i ++ S.drop (i + W.length))
      ∧ OccursAt S W i ∧ ∀ j, OccursAt S W j → i ≤ j)
    ∧ ∀ M R, generate_cloze_sentence S W M = some R →
        R.length = S.length - W.length + M.length := by
  obtain ⟨j0, hj0⟩ := hocc
  match hf : findSub S W with
  | none => exact absurd hj0 (findSub_none W S hf j0)
  | some i =>
    obtain ⟨hocc_i, hmin⟩ := findSub_some W S i hf
    have hle : i + W.length ≤ S.length :=
      occursAt_add_length_le S W i hW hocc_i
    constructor
    · refine ⟨i, ?_, hocc_i, ?_⟩
      · have := generate_eq_of_findSub S W [] hS hW i hf
        simpa using this
      · intro j hj
        by_contra hlt
        exact hmin j (by omega) hj
    · intro M R hR
      rw [generate_eq_of_findSub S W M hS hW i hf] at hR
      injection hR with hR
      subst hR
      simp only [List.length_append, List.length_take, List.length_drop]
      omega

theorem generate_empty_mask_and_length_inst :
    (∃ i, generate_cloze_sentence "hello".toList "ll".toList []
        = some ("hello".toList.take i
            ++ "hello".toList.drop (i + "ll".toList.length))
      ∧ OccursAt "hello".toList "ll".toList i
      ∧ ∀ j, OccursAt "hello".toList "ll".toList j → i ≤ j)
    ∧ ∀ M R, generate_cloze_sentence "hello".toList "ll".toList M = some R →
        R.length = "hello".toList.length - "ll".toList.length + M.length :=
  generate_empty_mask_and_length "hello".toList "ll".toList
    (by decide) (by decide) ⟨2, by decide⟩

/-- C3: refuted as stated — on a note whose destination field already holds
exactly the masked sentence, `populate_cloze` still returns `true` although
the destination field's value after the call equals its value before, so
`true` does not mean the record's content changed. -/
theorem populate_true_without_change :
    (populate_cloze defaults notePrefilled).1 = true ∧
    getField (populate_cloze defaults notePrefilled).2
        defaults.destinationField
      = getField notePrefilled defaults.destinationField := by
  decide

/-- C3 (amended): `populate_cloze` returns `true` iff every check passes and
a masked sentence is generated; it then writes that sentence into the
destination field — but the written value can equal the value already
stored, so a `true` result does not imply the destination's content differs
from before the call. -/
theorem populate_true_iff_wrote_mask (cfg : Cfg) (note : Note) :
    (populate_cloze cfg note).1 = true ↔
      ∃ clozed sRaw wRaw,
        passesTypeFilter cfg.noteTypes note.typeName = true ∧
        getField note cfg.sentenceField = some sRaw ∧
        getField note cfg.wordField = some wRaw ∧
        (getField note cfg.destinationField).isSome = true ∧
        generate_cloze_sentence (strip sRaw) (strip wRaw) cfg.maskString
          = some clozed ∧
        (populate_cloze cfg note).2
          = setField note cfg.destinationField clozed := by
  rcases populate_cloze_cases cfg note with
    ⟨clozed, sRaw, wRaw, h1, h2, h3, h4, h5, h6⟩ | hfalse
  · constructor
    · intro _
      exact ⟨clozed, sRaw, wRaw, h1, h2, h3, h4, h5, by rw [h6]⟩
    · intro _
      rw [h6]
  · constructor
    · intro h
      rw [hfalse] at h
      exact absurd h (by simp)
    · rintro ⟨clozed, sRaw, wRaw, h1, h2, h3, h4, h5, _⟩
      have hres := populate_cloze_eq_true_of cfg note sRaw wRaw clozed
        h1 h2 h3 h4 h5
      rw [hfalse] at hres
      exact absurd hres (by simp)

/-- C4: the note-type check used by `populate_cloze` passes every record when
the configured token list is empty; with a non-empty list it passes exactly
when at least one token occurs as a substring of the record's lowercased
type name. -/
theorem typeFilter_pass_iff (noteTypes name : List Char) :
    passesTypeFilter noteTypes name = true ↔
      (ntFilter noteTypes = [] ∨
        ∃ t ∈ ntFilter noteTypes, ∃ i, OccursAt (lower name) t i) := by
  rw [passesTypeFilter, Bool.or_eq_true, List.any_eq_true]
  constructor
  · rintro (h | ⟨t, ht, hc⟩)
    · exact Or.inl (List.isEmpty_iff.mp h)
    · exact Or.inr ⟨t, ht, (containsSub_iff _ _).mp hc⟩
  · rintro (h | ⟨t, ht, hocc⟩)
    · exact Or.inl (List.isEmpty_iff.mpr h)
    · exact Or.inr ⟨t, ht, (containsSub_iff _ _).mpr hocc⟩

/-- C5: whenever any of `populate_cloze`'s checks fails (type filtered out,
a named field missing, trimmed sentence or word empty, or generation not
applicable) it returns `false`, and on every `false` result the note — all
its fields and its type — is returned unchanged. -/
theorem populate_false_leaves_note_unchanged (cfg : Cfg) (note : Note)
    (h : (populate_cloze cfg note).1 = false) :
    (populate_cloze cfg note).2 = note := by
  rcases populate_cloze_cases cfg note with
    ⟨_, _, _, _, _, _, _, _, h6⟩ | hfalse
  · rw [h6] at h
    exact absurd h (by simp)
  · rw [hfalse]

theorem populate_false_leaves_note_unchanged_inst :
    (populate_cloze defaults noteMiss).2 = noteMiss :=
  populate_false_leaves_note_unchanged defaults noteMiss (by decide)

/-- C6: the source contradicts the spec here — `bulk_generate_cloze` wraps no
exception handling around its per-record work, so a failure while reading
one record propagates and aborts the whole batch: with note 1 malformed the
run errors out and note 2 is never processed, although note 2 on its own
would be processed and counted as changed. -/
theorem bulk_error_aborts_batch :
    bulk_generate_cloze storeWithBadNote defaults [1, 2]
      = Except.error "corrupt note" ∧
    bulk_generate_cloze storeWithBadNote defaults [2] = Except.ok 1 :=
  ⟨rfl, rfl⟩

/-- C7: refuted as stated — `_load_cfg` merges the user-saved mapping over
the defaults verbatim, so a user value that is empty after trimming (here a
whitespace-only `sentenceField`) is kept instead of falling back to the
documented default. -/
theorem load_cfg_keeps_blank_user_value :
    strip (load_cfg userBlankSentenceField).sentenceField = [] ∧
    (load_cfg userBlankSentenceField).sentenceField
      ≠ defaults.sentenceField := by
  decide

/-- C7 (amended): at load time each string-valued option that is absent from
the user-saved configuration takes its documented default, and each present
user value is used verbatim — even when it is empty or whitespace-only
(trimming empty values back to defaults happens only in the options dialog's
save path, not in `_load_cfg`). -/
theorem load_cfg_overlays_user_values (u : UserCfg) :
    ((u.sentenceField = none →
        (load_cfg u).sentenceField = defaults.sentenceField) ∧
      ∀ v, u.sentenceField = some v → (load_cfg u).sentenceField = v) ∧
    ((u.wordField = none → (load_cfg u).wordField = defaults.wordField) ∧
      ∀ v, u.wordField = some v → (load_cfg u).wordField = v) ∧
    ((u.destinationField = none →
        (load_cfg u).destinationField = defaults.destinationField) ∧
      ∀ v, u.destinationField = some v → (load_cfg u).destinationField = v) ∧
    ((u.noteTypes = none → (load_cfg u).noteTypes = defaults.noteTypes) ∧
      ∀ v, u.noteTypes = some v → (load_cfg u).noteTypes = v) ∧
    ((u.maskString = none → (load_cfg u).maskString = defaults.maskString) ∧
      ∀ v, u.maskString = some v → (load_cfg u).maskString = v) ∧
    ((u.bulkActionLabel = none →
        (load_cfg u).bulkActionLabel = defaults.bulkActionLabel) ∧
      ∀ v, u.bulkActionLabel = some v → (load_cfg u).bulkActionLabel = v) := by
  refine ⟨⟨?_, ?_⟩, ⟨?_, ?_⟩, ⟨?_, ?_⟩, ⟨?_, ?_⟩, ⟨?_, ?_⟩, ⟨?_, ?_⟩⟩ <;>
    intros <;> simp_all [load_cfg]

theorem load_cfg_overlays_user_values_inst :
    (load_cfg userEmpty).sentenceField = defaults.sentenceField :=
  (load_cfg_overlays_user_values userEmpty).1.1 rfl

/-- C8: once `populate_cloze` has returned `true` with updated note `note'`,
and the sentence and word fields of `note'` hold the same values as before
the run, re-running `populate_cloze` regenerates the same masked sentence
and writes the same destination value: the result is again `true` with
every field of `note'` unchanged. -/
theorem populate_rerun_fixed_point (cfg : Cfg) (note note' : Note)
    (h : populate_cloze cfg note = (true, note'))
    (hs : getField note' cfg.sentenceField = getField note cfg.sentenceField)
    (hw : getField note' cfg.wordField = getField note cfg.wordField) :
    populate_cloze cfg note' = (true, note') := by
  rcases populate_cloze_cases cfg note with
    ⟨clozed, sRaw, wRaw, h1, h2, h3, h4, h5, h6⟩ | hfalse
  · rw [h6] at h
    injection h with _ hnote
    have ht : note'.typeName = note.typeName := by
      rw [← hnote]
      rfl
    have hd' : getField note' cfg.destinationField = some clozed := by
      rw [← hnote]
      exact getField_setField_self note cfg.destinationField clozed h4
    have hres := populate_cloze_eq_true_of cfg note' sRaw wRaw clozed
      (by rw [ht]; exact h1) (by rw [hs]; exact h2) (by rw [hw]; exact h3)
      (by rw [hd']; rfl) h5
    rw [hres, setField_eq_of_getField note' cfg.destinationField clozed hd']
  · rw [hfalse] at h
    injection h with hb _
    exact absurd hb (by simp)

theorem populate_rerun_fixed_point_inst :
    populate_cloze defaults noteFreshDone = (true, noteFreshDone) :=
  populate_rerun_fixed_point defaults noteFresh noteFreshDone
    (by decide) (by decide) (by decide)

theorem splitComma_pieces_ws :
    ∀ s : List Char, (∀ c ∈ s, c = ',' ∨ c.isWhitespace = true) →
      ∀ t ∈ splitComma s, ∀ c ∈ t, c.isWhitespace = true := by
  intro s
  induction s with
  | nil =>
    intro _ t ht c hc
    rw [splitComma] at ht
    simp only [List.mem_singleton] at ht
    subst ht
    exact absurd hc (by simp)
  | cons a s' ih =>
    intro h t ht c hc
    have ha := h a (by simp)
    have h' : ∀ c ∈ s', c = ',' ∨ c.isWhitespace = true := by
      intro c hc
      exact h c (by simp [hc])
    rw [splitComma] at ht
    by_cases hcomma : a = ','
    · rw [if_pos hcomma] at ht
      rcases List.mem_cons.mp ht with h1 | h2
      · subst h1
        exact absurd hc (by simp)
      · exact ih h' t h2 c hc
    · rw [if_neg hcomma] at ht
      rcases hsp : splitComma s' with _ | ⟨p, ps⟩
      · rw [hsp] at ht
        simp only [List.mem_singleton] at ht
        subst ht
        simp only [List.mem_singleton] at hc
        subst hc
        rcases ha with h1 | h1
        · exact absurd h1 hcomma
        · exact h1
      · rw [hsp] at ht
        rcases List.mem_cons.mp ht with h1 | h2
        · subst h1
          rcases List.mem_cons.mp hc with hc1 | hc2
          · subst hc1
            rcases ha with h1 | h1
            · exact absurd h1 hcomma
            · exact h1
          · exact ih h' p (by rw [hsp]; simp) c hc2
        · exact ih h' t (by rw [hsp]; simp [h2]) c hc

theorem strip_eq_nil_of_ws (t : List Char)
    (h : ∀ c ∈ t, c.isWhitespace = true) : strip t = [] := by
  rw [strip]
  have h1 : t.dropWhile Char.isWhitespace = [] :=
    List.dropWhile_eq_nil_iff.mpr h
  rw [h1]
  rfl

theorem ntFilter_eq_nil (s : List Char)
    (h : ∀ c ∈ s, c = ',' ∨ c.isWhitespace = true) : ntFilter s = [] := by
  rw [ntFilter]
  have hf : (splitComma s).filter (fun t => !(strip t).isEmpty) = [] := by
    rw [List.filter_eq_nil_iff]
    intro t ht
    rw [strip_eq_nil_of_ws t (splitComma_pieces_ws s h t ht)]
    simp
  rw [hf]
  rfl

/-- C10: the note-type filter tokens are produced by splitting the configured
string on commas, trimming each piece, lowercasing it and discarding blank
pieces; consequently a `noteTypes` string made only of commas and whitespace
yields no tokens, its type check passes every record, and `populate_cloze`
behaves exactly as with the empty filter. -/
theorem commas_whitespace_filter_like_empty (s : List Char)
    (h : ∀ c ∈ s, c = ',' ∨ c.isWhitespace = true) :
    ntFilter s = [] ∧ (∀ name, passesTypeFilter s name = true) ∧
      ∀ (cfg : Cfg) (note : Note),
        populate_cloze { cfg with noteTypes := s } note
          = populate_cloze { cfg with noteTypes := [] } note := by
  have hnt : ntFilter s = [] := ntFilter_eq_nil s h
  have hpass : ∀ name, passesTypeFilter s name = true := by
    intro name
    rw [passesTypeFilter, hnt]
    rfl
  refine ⟨hnt, hpass, ?_⟩
  intro cfg note
  have hpass0 : passesTypeFilter [] note.typeName = true := rfl
  obtain ⟨f1, f2, f3, f4, f5, f6, f7, f8⟩ := cfg
  rw [populate_cloze, populate_cloze]
  dsimp only
  rw [hpass note.typeName, hpass0]

theorem commas_whitespace_filter_like_empty_inst :
    ntFilter (", ,\t,".toList) = [] :=
  (commas_whitespace_filter_like_empty (", ,\t,".toList) (by decide)).1

end ClozeMask
